import Mathlib

/-!
# Verification of the aidoku-as guest-side binding layer

A shallow embedding of the guest-side handle bridge of the repository:

* `src/modules/std.ts` — the dynamic value bridge (`HostObject`): host value
  store, constructors, `typeof`, object `get`/`set`/`remove`,
  `keys`/`values`/`toObject`, `toString`.
* `net.ts` (`src/unnamed/part_003`) — the HTTP `Request` pipeline with its
  local `sent` flag and the `data`/`string`/`json`/`html` accessors.
* `html.ts` (`src/unnamed/part_002`) — the `Html` node wrapper, in particular
  sibling navigation `next`/`previous` and `array()`.

The host runtime is external to the repository; its behaviour is modelled
from the boundary contract stated in the specification (§3, §6): values are
kept in a host-owned store addressed by integer handles, allocation hands
out fresh ids, strings cross the boundary as UTF-8 byte buffers with an
explicit length.  Handles are modelled as `Nat`; the `usize → i32` casts
that the guest performs are modelled explicitly by `toI32`.  Object keys are
modelled as `String` (the source encodes each key to UTF-8 bytes at the call
site; UTF-8 encoding is injective, so a string-keyed store is observably
identical to a byte-keyed one).  Float and date payloads are carried as
opaque bit patterns: no verified claim reads them back, only their Kind is
ever observed.
-/

set_option maxRecDepth 8192

/-- The `ObjectType` enumeration of `std.ts` (`Null = 0 … Date = 7`).
`Node` is the Kind carried by HTML node handles; the constant lives in the
revision of `std.ts` imported by `html.ts`, which is not under `src/`.
Modelled from the spec: "Kind (… Date for values; Node for HTML)". -/
inductive ObjectType where
  | Null
  | Int
  | Float
  | String
  | Bool
  | Array
  | Object
  | Date
  | Node
  deriving DecidableEq, Repr

/-- Interpreting an AssemblyScript `usize` (32-bit, nonnegative) value as
`i32`, as performed by the guest's `as i32` casts. -/
def toI32 (n : Nat) : Int :=
  if n % 4294967296 < 2147483648 then ((n % 4294967296 : Nat) : Int)
  else ((n % 4294967296 : Nat) : Int) - 4294967296

/-! ## UTF-8 (model of AssemblyScript `String.UTF8.encode` / `decode`)

The source encodes every guest string to UTF-8 bytes before it crosses the
boundary and decodes response bytes back.  The codec below is the standard
one, with shifts/masks phrased as division/remainder by powers of two. -/

/-- UTF-8 encoding of a single Unicode code point, byte values as `Nat`. -/
def utf8EncodeCp (n : Nat) : List Nat :=
  if n < 128 then [n]
  else if n < 2048 then [192 + n / 64, 128 + n % 64]
  else if n < 65536 then [224 + n / 4096, 128 + n / 64 % 64, 128 + n % 64]
  else [240 + n / 262144, 128 + n / 4096 % 64, 128 + n / 64 % 64, 128 + n % 64]

/-- Decode a two-byte sequence after a leading byte `b1` in `[0xC0, 0xE0)`. -/
def utf8Dec2 : Nat → List Nat → Option (Nat × List Nat)
  | b1, b2 :: rest =>
    if 128 ≤ b2 ∧ b2 < 192 then some ((b1 - 192) * 64 + (b2 - 128), rest) else none
  | _, [] => none

/-- Decode a three-byte sequence after a leading byte `b1` in `[0xE0, 0xF0)`. -/
def utf8Dec3 : Nat → List Nat → Option (Nat × List Nat)
  | b1, b2 :: b3 :: rest =>
    if (128 ≤ b2 ∧ b2 < 192) ∧ (128 ≤ b3 ∧ b3 < 192) then
      some ((b1 - 224) * 4096 + (b2 - 128) * 64 + (b3 - 128), rest)
    else none
  | _, _ => none

/-- Decode a four-byte sequence after a leading byte `b1` in `[0xF0, 0xF8)`. -/
def utf8Dec4 : Nat → List Nat → Option (Nat × List Nat)
  | b1, b2 :: b3 :: b4 :: rest =>
    if ((128 ≤ b2 ∧ b2 < 192) ∧ (128 ≤ b3 ∧ b3 < 192)) ∧ (128 ≤ b4 ∧ b4 < 192) then
      some ((b1 - 240) * 262144 + (b2 - 128) * 4096 + (b3 - 128) * 64 + (b4 - 128), rest)
    else none
  | _, _ => none

/-- Decode one UTF-8 code point from the front of a byte list, returning the
code point and the remaining bytes. -/
def utf8DecodeOne : List Nat → Option (Nat × List Nat)
  | [] => none
  | b1 :: rest =>
    if b1 < 128 then some (b1, rest)
    else if b1 < 192 then none
    else if b1 < 224 then utf8Dec2 b1 rest
    else if b1 < 240 then utf8Dec3 b1 rest
    else if b1 < 248 then utf8Dec4 b1 rest
    else none

/-- Fuel-indexed decoding loop (each step consumes at least one byte, so
fuel `bs.length` always suffices). -/
def utf8DecodeLoop : Nat → List Nat → Option (List Nat)
  | _, [] => some []
  | 0, _ :: _ => none
  | fuel + 1, b :: bs =>
    (utf8DecodeOne (b :: bs)).bind
      (fun cr => (utf8DecodeLoop fuel cr.2).map (cr.1 :: ·))

/-- UTF-8 decoding of a byte list to code points. -/
def utf8DecodeCps (bs : List Nat) : Option (List Nat) :=
  utf8DecodeLoop bs.length bs

/-- UTF-8 encoding of a string (model of `String.UTF8.encode`). -/
def utf8Encode (s : String) : List Nat :=
  s.data.flatMap (fun c => utf8EncodeCp c.toNat)

/-- Model of `String.UTF8.byteLength`. -/
def utf8ByteLength (s : String) : Nat :=
  (utf8Encode s).length

/-- String-level decode (model of `String.UTF8.decode`; the model answers
`""` on malformed input where the AssemblyScript decoder substitutes
replacement characters — no verified claim exercises malformed input). -/
def utf8Decode (bs : List Nat) : String :=
  match utf8DecodeCps bs with
  | some cps => String.mk (cps.map Char.ofNat)
  | none => ""

theorem utf8EncodeCp_ne_nil (n : Nat) : utf8EncodeCp n ≠ [] := by
  rw [utf8EncodeCp]
  split
  · simp
  · split
    · simp
    · split <;> simp

theorem utf8DecodeOne_encodeCp (n : Nat) (hn : n < 1114112) (bs : List Nat) :
    utf8DecodeOne (utf8EncodeCp n ++ bs) = some (n, bs) := by
  by_cases h1 : n < 128
  · rw [utf8EncodeCp, if_pos h1]
    simp only [List.cons_append, List.nil_append, utf8DecodeOne, if_pos h1]
  · by_cases h2 : n < 2048
    · rw [utf8EncodeCp, if_neg h1, if_pos h2]
      simp only [List.cons_append, List.nil_append, utf8DecodeOne]
      rw [if_neg (by omega), if_neg (by omega), if_pos (by omega)]
      rw [utf8Dec2, if_pos (by omega)]
      have : (192 + n / 64 - 192) * 64 + (128 + n % 64 - 128) = n := by omega
      rw [this]
    · by_cases h3 : n < 65536
      · rw [utf8EncodeCp, if_neg h1, if_neg h2, if_pos h3]
        simp only [List.cons_append, List.nil_append, utf8DecodeOne]
        rw [if_neg (by omega), if_neg (by omega), if_neg (by omega), if_pos (by omega)]
        rw [utf8Dec3, if_pos (by omega)]
        have : (224 + n / 4096 - 224) * 4096 + (128 + n / 64 % 64 - 128) * 64
            + (128 + n % 64 - 128) = n := by omega
        rw [this]
      · rw [utf8EncodeCp, if_neg h1, if_neg h2, if_neg h3]
        simp only [List.cons_append, List.nil_append, utf8DecodeOne]
        rw [if_neg (by omega), if_neg (by omega), if_neg (by omega), if_neg (by omega),
          if_pos (by omega)]
        rw [utf8Dec4, if_pos (by omega)]
        have : (240 + n / 262144 - 240) * 262144 + (128 + n / 4096 % 64 - 128) * 4096
            + (128 + n / 64 % 64 - 128) * 64 + (128 + n % 64 - 128) = n := by omega
        rw [this]

theorem utf8DecodeOne_shorter :
    ∀ bs cp rest, utf8DecodeOne bs = some (cp, rest) → rest.length < bs.length := by
  intro bs cp rest h
  cases bs with
  | nil => simp [utf8DecodeOne] at h
  | cons b1 tl =>
    simp only [utf8DecodeOne] at h
    split at h
    · cases h
      simp
    · split at h
      · cases h
      · split at h
        · cases tl with
          | nil => simp [utf8Dec2] at h
          | cons b2 tl2 =>
            simp only [utf8Dec2] at h
            split at h
            · cases h
              simp
              omega
            · cases h
        · split at h
          · cases tl with
            | nil => simp [utf8Dec3] at h
            | cons b2 tl2 =>
              cases tl2 with
              | nil => simp [utf8Dec3] at h
              | cons b3 tl3 =>
                simp only [utf8Dec3] at h
                split at h
                · cases h
                  simp
                  omega
                · cases h
          · split at h
            · cases tl with
              | nil => simp [utf8Dec4] at h
              | cons b2 tl2 =>
                cases tl2 with
                | nil => simp [utf8Dec4] at h
                | cons b3 tl3 =>
                  cases tl3 with
                  | nil => simp [utf8Dec4] at h
                  | cons b4 tl4 =>
                    simp only [utf8Dec4] at h
                    split at h
                    · cases h
                      simp
                      omega
                    · cases h
            · cases h

theorem utf8DecodeLoop_mono :
    ∀ f1 f2 bs, bs.length ≤ f1 → bs.length ≤ f2 →
      utf8DecodeLoop f1 bs = utf8DecodeLoop f2 bs := by
  intro f1
  induction f1 with
  | zero =>
    intro f2 bs h1 _
    have hbs : bs = [] := by
      cases bs with
      | nil => rfl
      | cons b tl => exact absurd h1 (by simp)
    subst hbs
    cases f2 <;> rfl
  | succ g ih =>
    intro f2 bs h1 h2
    cases bs with
    | nil => cases f2 <;> rfl
    | cons b tl =>
      cases f2 with
      | zero => exact absurd h2 (by simp)
      | succ g2 =>
        simp only [utf8DecodeLoop]
        cases hone : utf8DecodeOne (b :: tl) with
        | none => rfl
        | some cr =>
          have hlt := utf8DecodeOne_shorter (b :: tl) cr.1 cr.2 (by rw [hone])
          simp only [Option.some_bind']
          rw [ih g2 cr.2
            (by simp only [List.length_cons] at h1 hlt; omega)
            (by simp only [List.length_cons] at h2 hlt; omega)]

theorem utf8DecodeLoop_encode :
    ∀ cs bs fuel, (∀ c ∈ cs, c < 1114112) →
      (cs.flatMap utf8EncodeCp ++ bs).length ≤ fuel →
      utf8DecodeLoop fuel (cs.flatMap utf8EncodeCp ++ bs)
        = (utf8DecodeLoop bs.length bs).map (cs ++ ·) := by
  intro cs
  induction cs with
  | nil =>
    intro bs fuel _ hfuel
    simp only [List.flatMap_nil, List.nil_append] at hfuel ⊢
    rw [utf8DecodeLoop_mono fuel bs.length bs hfuel (Nat.le_refl _)]
    cases utf8DecodeLoop bs.length bs <;> simp
  | cons c cs ih =>
    intro bs fuel hvalid hfuel
    have hc : c < 1114112 := hvalid c (by simp)
    have hrest : ∀ x ∈ cs, x < 1114112 := fun x hx => hvalid x (by simp [hx])
    rw [List.flatMap_cons, List.append_assoc] at hfuel ⊢
    obtain ⟨b, t, hbt⟩ : ∃ b t, utf8EncodeCp c = b :: t := by
      cases henc : utf8EncodeCp c with
      | nil => exact absurd henc (utf8EncodeCp_ne_nil c)
      | cons b t => exact ⟨b, t, rfl⟩
    cases fuel with
    | zero =>
      rw [hbt] at hfuel
      exact absurd hfuel (by simp)
    | succ g =>
      rw [hbt, List.cons_append]
      simp only [utf8DecodeLoop]
      rw [← List.cons_append, ← hbt]
      rw [utf8DecodeOne_encodeCp c hc (cs.flatMap utf8EncodeCp ++ bs)]
      simp only [Option.some_bind']
      have hXg : (cs.flatMap utf8EncodeCp ++ bs).length ≤ g := by
        rw [hbt] at hfuel
        simp only [List.cons_append, List.length_cons, List.length_append] at hfuel ⊢
        omega
      rw [ih bs g hrest hXg]
      cases utf8DecodeLoop bs.length bs <;> simp

theorem utf8DecodeCps_encode (cs : List Nat) (h : ∀ c ∈ cs, c < 1114112) :
    utf8DecodeCps (cs.flatMap utf8EncodeCp) = some cs := by
  have := utf8DecodeLoop_encode cs [] (cs.flatMap utf8EncodeCp).length h (by simp)
  simp only [List.append_nil] at this
  rw [utf8DecodeCps, this]
  simp [utf8DecodeLoop]

theorem char_toNat_lt (c : Char) : c.toNat < 1114112 := by
  have h := c.valid
  rcases h with h | h
  · exact h.trans (by norm_num)
  · exact h.2

theorem utf8Decode_encode (s : String) : utf8Decode (utf8Encode s) = s := by
  have hvalid : ∀ c ∈ s.data.map Char.toNat, c < 1114112 := by
    intro c hc
    rcases List.mem_map.mp hc with ⟨ch, _, rfl⟩
    exact char_toNat_lt ch
  have henc : utf8Encode s = (s.data.map Char.toNat).flatMap utf8EncodeCp := by
    rw [utf8Encode, List.flatMap_map]
  rw [utf8Decode, henc, utf8DecodeCps_encode _ hvalid]
  have hmap : (s.data.map Char.toNat).map Char.ofNat = s.data := by
    rw [List.map_map]
    have : (Char.ofNat ∘ Char.toNat) = fun c => c := by
      funext c
      exact Char.ofNat_toNat c
    rw [this, List.map_id']
  show String.mk ((s.data.map Char.toNat).map Char.ofNat) = s
  rw [hmap]

theorem utf8Encode_eq_nil (s : String) (h : utf8Encode s = []) : s = "" := by
  cases s with
  | mk data =>
    cases data with
    | nil => rfl
    | cons c cs =>
      exfalso
      rw [utf8Encode] at h
      simp only [List.flatMap_cons] at h
      rcases List.append_eq_nil.mp h with ⟨h1, _⟩
      exact utf8EncodeCp_ne_nil c.toNat h1

/-! ## Host value store (model of the host side of `std.ts`'s boundary)

Modelled from the spec: the host owns a store of tagged values addressed by
integer handles; `create_*` allocates a fresh handle of the matching Kind,
`typeof` reports the Kind, and the object operations are key-addressed
(`object_get` on a missing key hands back a Null-kind handle). -/

/-- A host-resident value.  Payloads that no guest code path of the verified
claims reads back (floats, dates) are carried as opaque bit patterns. -/
inductive HVal where
  | vnull
  | vint (value : Int)
  | vfloat (bits : Nat)
  | vstr (bytes : List Nat)
  | vbool (value : Bool)
  | varr (elems : List Nat)
  | vobj (entries : List (String × Nat))
  | vdate (bits : Nat)
  deriving DecidableEq, Repr

/-- The Kind tag of a host value, as reported by `typeof`. -/
def HVal.kind : HVal → ObjectType
  | .vnull => .Null
  | .vint _ => .Int
  | .vfloat _ => .Float
  | .vstr _ => .String
  | .vbool _ => .Bool
  | .varr _ => .Array
  | .vobj _ => .Object
  | .vdate _ => .Date

/-- The host-side store: a monotone id counter and the live entries. -/
structure Store where
  nextId : Nat
  entries : List (Nat × HVal)
  deriving DecidableEq, Repr

/-- Well-formedness: every live id is below the allocation counter (true of
every store the host can reach, since ids are handed out from the counter). -/
def Store.WF (st : Store) : Prop :=
  ∀ p ∈ st.entries, p.1 < st.nextId

instance (st : Store) : Decidable st.WF := by
  unfold Store.WF
  infer_instance

/-- First-match lookup in the entry list. -/
def storeGet : List (Nat × HVal) → Nat → Option HVal
  | [], _ => none
  | p :: rest, rid => if p.1 = rid then some p.2 else storeGet rest rid

/-- Replace the value stored at an id (no-op when the id is dead). -/
def storeSet : List (Nat × HVal) → Nat → HVal → List (Nat × HVal)
  | [], _, _ => []
  | p :: rest, rid, v => if p.1 = rid then (rid, v) :: rest else p :: storeSet rest rid v

/-- Allocate a fresh handle holding `v`. -/
def Store.alloc (st : Store) (v : HVal) : Nat × Store :=
  (st.nextId, ⟨st.nextId + 1, st.entries ++ [(st.nextId, v)]⟩)

/-- Host value reachable from a handle. -/
def Store.lookup (st : Store) (rid : Nat) : Option HVal :=
  storeGet st.entries rid

/-! Boundary calls of `std.ts` (`create_*`, `typeof`, `string_len`,
`read_string`, `object_*`), acting on the modelled store. -/

def create_null (st : Store) : Nat × Store := st.alloc .vnull
def create_array (st : Store) : Nat × Store := st.alloc (.varr [])
def create_object (st : Store) : Nat × Store := st.alloc (.vobj [])
def create_string (st : Store) (bytes : List Nat) : Nat × Store := st.alloc (.vstr bytes)
def create_int (st : Store) (value : Int) : Nat × Store := st.alloc (.vint value)
def create_float (st : Store) (bits : Nat) : Nat × Store := st.alloc (.vfloat bits)
def create_bool (st : Store) (value : Bool) : Nat × Store := st.alloc (.vbool value)

/-- `typeof` boundary call (Kind of the value behind a handle; dead handles
are host-undefined, modelled as Null — no verified claim queries one). -/
def typeof_std (st : Store) (rid : Nat) : ObjectType :=
  match st.lookup rid with
  | some v => v.kind
  | none => .Null

/-- `string_len` boundary call. -/
def string_len (st : Store) (rid : Nat) : Nat :=
  match st.lookup rid with
  | some (.vstr bytes) => bytes.length
  | _ => 0

/-- `read_string` boundary call: fill a buffer of `len` bytes. -/
def read_string (st : Store) (rid : Nat) (len : Nat) : List Nat :=
  match st.lookup rid with
  | some (.vstr bytes) => bytes.take len
  | _ => []

/-! Association-list operations mirroring the host's key → handle mapping
(AssemblyScript `Map` semantics: `set` overwrites an existing key in place,
otherwise appends; `delete` removes the key). -/

def mapGet : List (String × Nat) → String → Option Nat
  | [], _ => none
  | p :: rest, k => if p.1 = k then some p.2 else mapGet rest k

def mapSet : List (String × Nat) → String → Nat → List (String × Nat)
  | [], k, v => [(k, v)]
  | p :: rest, k, v => if p.1 = k then (k, v) :: rest else p :: mapSet rest k v

def mapRemove : List (String × Nat) → String → List (String × Nat)
  | [], _ => []
  | p :: rest, k => if p.1 = k then mapRemove rest k else p :: mapRemove rest k

/-- `object_get` boundary call: the stored handle, or a freshly allocated
Null-kind handle when the key is absent (modelled from the spec: "`get` on a
missing key returns a Null-kind Handle (not an error)"). -/
def object_get (st : Store) (rid : Nat) (k : String) : Nat × Store :=
  match st.lookup rid with
  | some (.vobj m) =>
    match mapGet m k with
    | some h => (h, st)
    | none => st.alloc .vnull
  | _ => st.alloc .vnull

/-- `object_set` boundary call. -/
def object_set (st : Store) (rid : Nat) (k : String) (v : Nat) : Store :=
  match st.lookup rid with
  | some (.vobj m) => ⟨st.nextId, storeSet st.entries rid (.vobj (mapSet m k v))⟩
  | _ => st

/-- `object_remove` boundary call. -/
def object_remove (st : Store) (rid : Nat) (k : String) : Store :=
  match st.lookup rid with
  | some (.vobj m) => ⟨st.nextId, storeSet st.entries rid (.vobj (mapRemove m k))⟩
  | _ => st

/-! ## The `HostObject` class of `std.ts` (store-level model)

A `HostObject` instance only wraps the handle (`rid`); the static
constructors call the matching `create_*` boundary function (`string`
encodes to UTF-8 bytes first, passing `String.UTF8.byteLength` as length).
-/

namespace HostObject

def null (st : Store) : Nat × Store := create_null st
def array (st : Store) : Nat × Store := create_array st
def object (st : Store) : Nat × Store := create_object st
def string (st : Store) (value : String) : Nat × Store :=
  create_string st ((utf8Encode value).take (utf8ByteLength value))
def integer (st : Store) (value : Int) : Nat × Store := create_int st value
def float (st : Store) (bits : Nat) : Nat × Store := create_float st bits
def bool (st : Store) (value : Bool) : Nat × Store := create_bool st value

/-- `get type()`. -/
def type (st : Store) (rid : Nat) : ObjectType := typeof_std st rid

/-- `get(key)`. -/
def get (st : Store) (rid : Nat) (key : String) : Nat × Store := object_get st rid key

/-- `set(key, value)`. -/
def set (st : Store) (rid : Nat) (key : String) (value : Nat) : Store :=
  object_set st rid key value

/-- `remove(key)`. -/
def remove (st : Store) (rid : Nat) (key : String) : Store := object_remove st rid key

/-- `toString()`: read the length, return `""` when the `i32` view of it is
not positive, otherwise read and decode that many bytes. -/
def toString (st : Store) (rid : Nat) : String :=
  let len := toI32 (string_len st rid)
  if len ≤ 0 then "" else utf8Decode (read_string st rid len.toNat)

/-- Combined effect of `keys()` on an Object handle: the host enumerates the
keys (`object_keys`) in entry order and the guest decodes each. -/
def keys (st : Store) (rid : Nat) : List String :=
  match st.lookup rid with
  | some (.vobj m) => m.map (·.1)
  | _ => []

/-- Combined effect of `values()` on an Object handle: the host enumerates
the value handles (`object_values`) in the same entry order. -/
def values (st : Store) (rid : Nat) : List Nat :=
  match st.lookup rid with
  | some (.vobj m) => m.map (·.2)
  | _ => []

end HostObject

/-- The loop body of `toObject()`: for each index `i` below `keys.length`,
`result.set(keys[i], values[i])`; `none` models the AssemblyScript trap when
`values[i]` is accessed out of bounds. -/
def toObjectGo : List (String × Nat) → List String → List Nat → Option (List (String × Nat))
  | acc, [], _ => some acc
  | _, _ :: _, [] => none
  | acc, k :: ks, v :: vs => toObjectGo (mapSet acc k v) ks vs

/-- `toObject()` as a function of the two enumeration results. -/
def toObjectOf (keys : List String) (values : List Nat) : Option (List (String × Nat)) :=
  toObjectGo [] keys values

/-- `toObject()` on an Object handle: zip `keys()` with `values()`. -/
def HostObject.toObject (st : Store) (rid : Nat) : Option (List (String × Nat)) :=
  toObjectOf (HostObject.keys st rid) (HostObject.values st rid)

/-! ## Store lemmas -/

theorem toI32_of_small (n : Nat) (h : n < 2147483648) : toI32 n = (n : Int) := by
  rw [toI32, Nat.mod_eq_of_lt (by omega), if_pos h]

theorem storeGet_append_fresh (es : List (Nat × HVal)) (n : Nat) (v : HVal)
    (h : ∀ p ∈ es, p.1 ≠ n) : storeGet (es ++ [(n, v)]) n = some v := by
  induction es with
  | nil => simp [storeGet]
  | cons p rest ih =>
    rw [List.cons_append, storeGet, if_neg (h p (by simp))]
    exact ih (fun q hq => h q (by simp [hq]))

theorem Store.alloc_lookup (st : Store) (v : HVal) (hwf : st.WF) :
    (st.alloc v).2.lookup (st.alloc v).1 = some v := by
  apply storeGet_append_fresh
  intro p hp
  exact Nat.ne_of_lt (hwf p hp)

theorem Store.alloc_fresh (st : Store) (v : HVal) (hwf : st.WF) :
    (st.alloc v).1 ∉ st.entries.map Prod.fst := by
  intro hmem
  rcases List.mem_map.mp hmem with ⟨p, hp, hfst⟩
  exact absurd hfst (Nat.ne_of_lt (hwf p hp))

theorem Store.alloc_type (st : Store) (v : HVal) (hwf : st.WF) :
    typeof_std (st.alloc v).2 (st.alloc v).1 = v.kind := by
  rw [typeof_std, Store.alloc_lookup st v hwf]

theorem Store.alloc_WF (st : Store) (v : HVal) (hwf : st.WF) : (st.alloc v).2.WF := by
  intro p hp
  rcases List.mem_append.mp hp with h | h
  · exact Nat.lt_succ_of_lt (hwf p h)
  · simp only [List.mem_singleton] at h
    subst h
    exact Nat.lt_succ_self _

theorem mem_storeSet_fst (es : List (Nat × HVal)) (rid : Nat) (v : HVal) :
    ∀ q ∈ storeSet es rid v, ∃ p ∈ es, q.1 = p.1 := by
  induction es with
  | nil => intro q hq; simp [storeSet] at hq
  | cons p rest ih =>
    intro q hq
    rw [storeSet] at hq
    by_cases hp : p.1 = rid
    · rw [if_pos hp] at hq
      rcases List.mem_cons.mp hq with h | h
      · exact ⟨p, by simp, by rw [h, hp]⟩
      · exact ⟨q, by simp [h], rfl⟩
    · rw [if_neg hp] at hq
      rcases List.mem_cons.mp hq with h | h
      · exact ⟨p, by simp, by rw [h]⟩
      · rcases ih q h with ⟨p', hp', hfst⟩
        exact ⟨p', by simp [hp'], hfst⟩

theorem storeGet_storeSet_self (es : List (Nat × HVal)) (rid : Nat) (v w : HVal)
    (h : storeGet es rid = some w) : storeGet (storeSet es rid v) rid = some v := by
  induction es with
  | nil => simp [storeGet] at h
  | cons p rest ih =>
    rw [storeGet] at h
    rw [storeSet]
    by_cases hp : p.1 = rid
    · rw [if_pos hp, storeGet, if_pos rfl]
    · rw [if_neg hp] at h
      rw [if_neg hp, storeGet, if_neg hp]
      exact ih h

theorem object_set_WF (st : Store) (rid : Nat) (k : String) (v : Nat) (hwf : st.WF) :
    (object_set st rid k v).WF := by
  rw [object_set]
  split
  · intro q hq
    rcases mem_storeSet_fst st.entries rid _ q hq with ⟨p, hp, hfst⟩
    exact hfst ▸ hwf p hp
  · exact hwf

theorem object_remove_WF (st : Store) (rid : Nat) (k : String) (hwf : st.WF) :
    (object_remove st rid k).WF := by
  rw [object_remove]
  split
  · intro q hq
    rcases mem_storeSet_fst st.entries rid _ q hq with ⟨p, hp, hfst⟩
    exact hfst ▸ hwf p hp
  · exact hwf

theorem mapGet_mapSet (m : List (String × Nat)) (k k' : String) (v : Nat) :
    mapGet (mapSet m k v) k' = if k' = k then some v else mapGet m k' := by
  induction m with
  | nil =>
    simp only [mapSet, mapGet]
    by_cases h : k' = k
    · subst h
      rw [if_pos rfl]
    · rw [if_neg (fun hk => h hk.symm), if_neg h]
  | cons p rest ih =>
    simp only [mapSet]
    by_cases hp : p.1 = k
    · rw [if_pos hp]
      simp only [mapGet]
      by_cases h : k' = k
      · subst h
        rw [if_pos rfl]
        rw [if_pos rfl]
      · have hpk : ¬ p.1 = k' := by rw [hp]; exact fun hk => h hk.symm
        rw [if_neg (fun hk => h hk.symm), if_neg h, if_neg hpk]
    · rw [if_neg hp]
      simp only [mapGet]
      by_cases hq : p.1 = k'
      · have hkk : ¬ k' = k := fun he => hp (hq.trans he)
        rw [if_pos hq, if_neg hkk, if_pos hq]
      · rw [if_neg hq, ih]
        by_cases h : k' = k
        · rw [if_pos h]
          rw [if_pos h]
        · rw [if_neg h]
          rw [if_neg h, if_neg hq]

theorem length_mapSet_new (m : List (String × Nat)) (k : String) (v : Nat)
    (h : mapGet m k = none) : (mapSet m k v).length = m.length + 1 := by
  induction m with
  | nil => rfl
  | cons p rest ih =>
    rw [mapGet] at h
    by_cases hp : p.1 = k
    · rw [if_pos hp] at h
      cases h
    · rw [if_neg hp] at h
      rw [mapSet, if_neg hp, List.length_cons, List.length_cons, ih h]

theorem mapGet_mapRemove_self (m : List (String × Nat)) (k : String) :
    mapGet (mapRemove m k) k = none := by
  induction m with
  | nil => rfl
  | cons p rest ih =>
    rw [mapRemove]
    by_cases hp : p.1 = k
    · rw [if_pos hp]
      exact ih
    · rw [if_neg hp, mapGet, if_neg hp]
      exact ih

theorem string_len_alloc (st : Store) (bytes : List Nat) (hwf : st.WF) :
    string_len (st.alloc (.vstr bytes)).2 (st.alloc (.vstr bytes)).1 = bytes.length := by
  rw [string_len, Store.alloc_lookup st _ hwf]

theorem read_string_alloc (st : Store) (bytes : List Nat) (len : Nat) (hwf : st.WF) :
    read_string (st.alloc (.vstr bytes)).2 (st.alloc (.vstr bytes)).1 len = bytes.take len := by
  rw [read_string, Store.alloc_lookup st _ hwf]

/-- C5: round-trip — building a String-kind value with `string(s)` and then
calling `toString()` on it returns `s`, including for the empty string.  The
byte-length bound reflects the guest's 32-bit address space: `toString`
reinterprets the `usize` result of `string_len` as `i32`, and no string a
wasm32 guest can hold reaches `2^31` bytes. -/
theorem HostObject.string_toString_roundtrip (st : Store) (s : String)
    (hwf : st.WF) (hlen : utf8ByteLength s < 2147483648) :
    HostObject.toString (HostObject.string st s).2 (HostObject.string st s).1 = s := by
  have htake : (utf8Encode s).take (utf8ByteLength s) = utf8Encode s := by
    rw [utf8ByteLength]
    exact List.take_length _
  rw [HostObject.string, htake, create_string]
  have hsl := string_len_alloc st (utf8Encode s) hwf
  by_cases hz : (utf8Encode s).length = 0
  · have hs : s = "" := utf8Encode_eq_nil s (List.length_eq_zero.mp hz)
    simp only [HostObject.toString, hsl, hz]
    rw [if_pos (by rw [toI32_of_small 0 (by omega)]; exact Int.le_refl 0)]
    exact hs.symm
  · have hpos : 0 < (utf8Encode s).length := Nat.pos_of_ne_zero hz
    have hlen' : (utf8Encode s).length < 2147483648 := hlen
    simp only [HostObject.toString, hsl]
    rw [toI32_of_small _ hlen']
    rw [if_neg (by omega)]
    rw [Int.toNat_natCast]
    rw [read_string_alloc st (utf8Encode s) _ hwf, List.take_length]
    exact utf8Decode_encode s

theorem string_toString_roundtrip_witness :
    Store.WF ⟨0, []⟩ ∧ utf8ByteLength "ab" < 2147483648 ∧
      HostObject.toString (HostObject.string ⟨0, []⟩ "ab").2
        (HostObject.string ⟨0, []⟩ "ab").1 = "ab" :=
  ⟨by decide, by decide,
    HostObject.string_toString_roundtrip ⟨0, []⟩ "ab" (by decide) (by decide)⟩

/-- C6: each of the constructors `null()`, `array()`, `object()`,
`string(s)`, `integer(n)`, `float(n)`, `bool(b)` allocates a fresh handle
(one not naming any live entry of the prior store) and `type()` queried on
it immediately afterwards returns the corresponding Kind. -/
theorem HostObject.constructors_type (st : Store) (hwf : st.WF) :
    (HostObject.type (HostObject.null st).2 (HostObject.null st).1 = ObjectType.Null
      ∧ (HostObject.null st).1 ∉ st.entries.map Prod.fst)
    ∧ (HostObject.type (HostObject.array st).2 (HostObject.array st).1 = ObjectType.Array
      ∧ (HostObject.array st).1 ∉ st.entries.map Prod.fst)
    ∧ (HostObject.type (HostObject.object st).2 (HostObject.object st).1 = ObjectType.Object
      ∧ (HostObject.object st).1 ∉ st.entries.map Prod.fst)
    ∧ (∀ s : String,
        HostObject.type (HostObject.string st s).2 (HostObject.string st s).1
          = ObjectType.String
        ∧ (HostObject.string st s).1 ∉ st.entries.map Prod.fst)
    ∧ (∀ n : Int,
        HostObject.type (HostObject.integer st n).2 (HostObject.integer st n).1
          = ObjectType.Int
        ∧ (HostObject.integer st n).1 ∉ st.entries.map Prod.fst)
    ∧ (∀ bits : Nat,
        HostObject.type (HostObject.float st bits).2 (HostObject.float st bits).1
          = ObjectType.Float
        ∧ (HostObject.float st bits).1 ∉ st.entries.map Prod.fst)
    ∧ (∀ b : Bool,
        HostObject.type (HostObject.bool st b).2 (HostObject.bool st b).1
          = ObjectType.Bool
        ∧ (HostObject.bool st b).1 ∉ st.entries.map Prod.fst) :=
  ⟨⟨Store.alloc_type st .vnull hwf, Store.alloc_fresh st .vnull hwf⟩,
   ⟨Store.alloc_type st (.varr []) hwf, Store.alloc_fresh st (.varr []) hwf⟩,
   ⟨Store.alloc_type st (.vobj []) hwf, Store.alloc_fresh st (.vobj []) hwf⟩,
   fun _ => ⟨Store.alloc_type st (.vstr _) hwf, Store.alloc_fresh st (.vstr _) hwf⟩,
   fun n => ⟨Store.alloc_type st (.vint n) hwf, Store.alloc_fresh st (.vint n) hwf⟩,
   fun bits => ⟨Store.alloc_type st (.vfloat bits) hwf, Store.alloc_fresh st (.vfloat bits) hwf⟩,
   fun b => ⟨Store.alloc_type st (.vbool b) hwf, Store.alloc_fresh st (.vbool b) hwf⟩⟩

theorem constructors_type_witness :
    HostObject.type (HostObject.object ⟨5, [(0, HVal.vnull)]⟩).2
        (HostObject.object ⟨5, [(0, HVal.vnull)]⟩).1 = ObjectType.Object
    ∧ (HostObject.object ⟨5, [(0, HVal.vnull)]⟩).1 ∉
        (Store.entries ⟨5, [(0, HVal.vnull)]⟩).map Prod.fst :=
  (HostObject.constructors_type ⟨5, [(0, HVal.vnull)]⟩ (by decide)).2.2.1

theorem object_get_obj (st : Store) (rid : Nat) (m : List (String × Nat)) (k : String)
    (hobj : st.lookup rid = some (.vobj m)) :
    object_get st rid k = match mapGet m k with
      | some h => (h, st)
      | none => st.alloc .vnull := by
  rw [object_get, hobj]

theorem object_get_found (st : Store) (rid : Nat) (m : List (String × Nat)) (k : String)
    (h : Nat) (hobj : st.lookup rid = some (.vobj m)) (hfound : mapGet m k = some h) :
    object_get st rid k = (h, st) := by
  rw [object_get_obj st rid m k hobj, hfound]

theorem object_get_missing (st : Store) (rid : Nat) (m : List (String × Nat)) (k : String)
    (hobj : st.lookup rid = some (.vobj m)) (hmiss : mapGet m k = none) :
    object_get st rid k = st.alloc .vnull := by
  rw [object_get_obj st rid m k hobj, hmiss]

/-- C7: on an Object-kind handle, `set(k, v)` followed by `get(k)` yields
`v`'s handle (hence content equivalent to `v`); `remove(k)` followed by
`get(k)` yields a Null-kind handle; and `get` on a key absent from the
mapping also yields a Null-kind handle. -/
theorem HostObject.get_set_remove_spec (st : Store) (rid : Nat) (m : List (String × Nat))
    (hwf : st.WF) (hobj : st.lookup rid = some (.vobj m)) :
    (∀ k v, (HostObject.get (HostObject.set st rid k v) rid k).1 = v)
    ∧ (∀ k v,
        HostObject.type
          (HostObject.get (HostObject.remove (HostObject.set st rid k v) rid k) rid k).2
          (HostObject.get (HostObject.remove (HostObject.set st rid k v) rid k) rid k).1
        = ObjectType.Null)
    ∧ (∀ k, mapGet m k = none →
        HostObject.type (HostObject.get st rid k).2 (HostObject.get st rid k).1
        = ObjectType.Null) := by
  have hset : ∀ k v, (HostObject.set st rid k v).lookup rid
      = some (.vobj (mapSet m k v)) := by
    intro k v
    rw [HostObject.set, object_set, hobj]
    exact storeGet_storeSet_self st.entries rid _ _ hobj
  have hsetWF : ∀ k v, (HostObject.set st rid k v).WF := fun k v =>
    object_set_WF st rid k v hwf
  refine ⟨?_, ?_, ?_⟩
  · intro k v
    rw [HostObject.get,
      object_get_found _ rid (mapSet m k v) k v (hset k v)
        (by rw [mapGet_mapSet, if_pos rfl])]
  · intro k v
    have hrem : (HostObject.remove (HostObject.set st rid k v) rid k).lookup rid
        = some (.vobj (mapRemove (mapSet m k v) k)) := by
      rw [HostObject.remove, object_remove, hset k v]
      exact storeGet_storeSet_self _ rid _ _ (hset k v)
    have hremWF : (HostObject.remove (HostObject.set st rid k v) rid k).WF :=
      object_remove_WF _ rid k (hsetWF k v)
    rw [HostObject.get,
      object_get_missing _ rid (mapRemove (mapSet m k v) k) k hrem
        (mapGet_mapRemove_self _ k)]
    exact Store.alloc_type _ .vnull hremWF
  · intro k hk
    rw [HostObject.get, object_get_missing st rid m k hobj hk]
    exact Store.alloc_type st .vnull hwf

theorem get_set_remove_spec_witness :
    (HostObject.get
      (HostObject.set ⟨2, [(0, HVal.vobj [("a", 1)])]⟩ 0 "b" 1) 0 "b").1 = 1 :=
  (HostObject.get_set_remove_spec ⟨2, [(0, HVal.vobj [("a", 1)])]⟩ 0 [("a", 1)]
    (by decide) (by decide)).1 "b" 1

theorem toObjectGo_spec :
    ∀ (ks : List String) (vs : List Nat) (acc : List (String × Nat)),
      ks.Nodup → ks.length ≤ vs.length →
      (∀ k ∈ ks, mapGet acc k = none) →
      ∃ m, toObjectGo acc ks vs = some m
        ∧ m.length = acc.length + ks.length
        ∧ (∀ i, i < ks.length → mapGet m (ks.getD i "") = vs.get? i)
        ∧ (∀ k, mapGet acc k ≠ none → mapGet m k = mapGet acc k) := by
  intro ks
  induction ks with
  | nil =>
    intro vs acc _ _ _
    exact ⟨acc, rfl, by simp, fun i h => absurd h (by simp), fun k _ => rfl⟩
  | cons k ks ih =>
    intro vs acc hnd hlen hacc
    cases vs with
    | nil => exact absurd hlen (by simp)
    | cons v vs =>
      have hknotin : k ∉ ks := (List.nodup_cons.mp hnd).1
      have hndtl : ks.Nodup := (List.nodup_cons.mp hnd).2
      have hacck : mapGet acc k = none := hacc k (by simp)
      have hacctl : ∀ k' ∈ ks, mapGet (mapSet acc k v) k' = none := by
        intro k' hk'
        have hne : ¬ k' = k := by
          intro he
          rw [he] at hk'
          exact hknotin hk'
        rw [mapGet_mapSet, if_neg hne]
        exact hacc k' (by simp [hk'])
      rcases ih vs (mapSet acc k v) hndtl (by simpa using hlen) hacctl with
        ⟨m, hm, hmlen, hget, hpres⟩
      refine ⟨m, hm, ?_, ?_, ?_⟩
      · rw [hmlen, length_mapSet_new acc k v hacck]
        simp only [List.length_cons]
        omega
      · intro i h
        cases i with
        | zero =>
          have hne : mapGet (mapSet acc k v) k ≠ none := by
            rw [mapGet_mapSet, if_pos rfl]
            exact Option.some_ne_none v
          rw [show (k :: ks).getD 0 "" = k from rfl, hpres k hne,
            mapGet_mapSet, if_pos rfl]
          rfl
        | succ j =>
          have hj : j < ks.length := by simpa using h
          rw [show (k :: ks).getD (j + 1) "" = ks.getD j "" from rfl]
          exact hget j hj
      · intro k0 hk0
        have hne : k0 ≠ k := fun he => hk0 (he ▸ hacck)
        have hstep : mapGet (mapSet acc k v) k0 = mapGet acc k0 := by
          rw [mapGet_mapSet, if_neg hne]
        rw [hpres k0 (by rw [hstep]; exact hk0), hstep]

/-- C3: on an Object-kind handle, `toObject()` produces a mapping whose size
equals `keys().length`, and for every `i < keys().length` the mapping sends
`keys()[i]` to `values()[i]` — under the host's mapping contract that the
enumerated keys are pairwise distinct. -/
theorem HostObject.toObject_spec (st : Store) (rid : Nat) (m : List (String × Nat))
    (hobj : st.lookup rid = some (.vobj m)) (hnd : (m.map Prod.fst).Nodup) :
    ∃ r, HostObject.toObject st rid = some r
      ∧ r.length = (HostObject.keys st rid).length
      ∧ ∀ i, i < (HostObject.keys st rid).length →
          mapGet r ((HostObject.keys st rid).getD i "")
            = (HostObject.values st rid).get? i := by
  have hkeys : HostObject.keys st rid = m.map Prod.fst := by
    rw [HostObject.keys, hobj]
  have hvals : HostObject.values st rid = m.map Prod.snd := by
    rw [HostObject.values, hobj]
  have hlen : (m.map Prod.fst).length ≤ (m.map Prod.snd).length := by simp
  rcases toObjectGo_spec (m.map Prod.fst) (m.map Prod.snd) [] (hkeys ▸ hnd) hlen
    (fun k _ => rfl) with ⟨r, hr, hrlen, hrget, _⟩
  refine ⟨r, ?_, ?_, ?_⟩
  · rw [HostObject.toObject, toObjectOf, hkeys, hvals, hr]
  · rw [hrlen, hkeys]
    simp
  · simp only [hkeys, hvals]
    exact hrget

theorem toObject_spec_witness :
    ∃ r, HostObject.toObject ⟨3, [(0, HVal.vobj [("a", 1), ("b", 2)])]⟩ 0 = some r
      ∧ r.length = (HostObject.keys ⟨3, [(0, HVal.vobj [("a", 1), ("b", 2)])]⟩ 0).length
      ∧ ∀ i, i < (HostObject.keys ⟨3, [(0, HVal.vobj [("a", 1), ("b", 2)])]⟩ 0).length →
          mapGet r ((HostObject.keys ⟨3, [(0, HVal.vobj [("a", 1), ("b", 2)])]⟩ 0).getD i "")
            = (HostObject.values ⟨3, [(0, HVal.vobj [("a", 1), ("b", 2)])]⟩ 0).get? i :=
  HostObject.toObject_spec ⟨3, [(0, HVal.vobj [("a", 1), ("b", 2)])]⟩ 0
    [("a", 1), ("b", 2)] (by decide) (by decide)

theorem toObjectGo_isSome :
    ∀ (ks : List String) (vs : List Nat) (acc : List (String × Nat)),
      ks.length ≤ vs.length → (toObjectGo acc ks vs).isSome := by
  intro ks
  induction ks with
  | nil => intro vs acc _; rfl
  | cons k ks ih =>
    intro vs acc hlen
    cases vs with
    | nil => exact absurd hlen (by simp)
    | cons v vs => exact ih vs (mapSet acc k v) (by simpa using hlen)

/-- C10: the `toObject()` loop reads `values()[i]` for every
`i < keys().length`; whenever the host enumeration satisfies
`values().length ≥ keys().length` every such access is in bounds and
`toObject()` is total (the model returns `some`, never the out-of-range
trap `none`). -/
theorem toObjectOf_total (keys : List String) (values : List Nat)
    (h : keys.length ≤ values.length) : (toObjectOf keys values).isSome :=
  toObjectGo_isSome keys values [] h

theorem toObjectOf_total_witness : (toObjectOf ["a"] [5, 6]).isSome :=
  toObjectOf_total ["a"] [5, 6] (by decide)

/-! ## Abstract host with call traces

For the frame/safety claims the relevant observable is *which boundary
calls the guest issues*.  The host is an oracle (a structure of response
functions) and every embedded guest function returns its result together
with the list of boundary events it emitted, in order. -/

/-- Host oracle for the `std`/`html` boundary calls used by the enumeration
and read helpers. -/
structure StdHost where
  string_len : Nat → Nat
  read_string : Nat → Nat → List Nat
  object_keys : Nat → Nat
  object_values : Nat → Nat
  array_len : Nat → Nat
  array_get : Nat → Nat → Nat
  html_array : Nat → Nat

/-- Boundary events of the `std`/`html` imports. -/
inductive StdEvent where
  | stringLen (rid : Nat)
  | readString (rid len : Nat)
  | objectKeys (rid : Nat)
  | objectValues (rid : Nat)
  | arrayLen (rid : Nat)
  | arrayGet (rid idx : Nat)
  | destroy (rid : Nat)
  | htmlArray (rid : Nat)
  deriving DecidableEq, Repr

/-- `toString()` with its call trace: read the length; if its `i32` view is
not positive return `""` without reading, else `read_string` that many
bytes and decode. -/
def HostObject.toStringTr (H : StdHost) (rid : Nat) : String × List StdEvent :=
  let len := toI32 (H.string_len rid)
  if len ≤ 0 then ("", [StdEvent.stringLen rid])
  else (utf8Decode (H.read_string rid len.toNat),
    [StdEvent.stringLen rid, StdEvent.readString rid len.toNat])

/-- `close()` with its call trace (`destroy`). -/
def HostObject.closeTr (rid : Nat) : List StdEvent :=
  [StdEvent.destroy rid]

/-- `toArray()` body with its call trace: `array_len`, then `array_get` at
each index below the `i32` view of the size. -/
def toArrayTr (H : StdHost) (rid : Nat) : List Nat × List StdEvent :=
  let size := toI32 (H.array_len rid)
  ((List.range size.toNat).map (H.array_get rid),
    StdEvent.arrayLen rid :: (List.range size.toNat).map (StdEvent.arrayGet rid))

/-- `keys()` with its call trace: `object_keys` hands back an intermediate
array handle, which is materialized with `toArray()` and decoded entrywise
with `toString()`. -/
def HostObject.keysTr (H : StdHost) (rid : Nat) : List String × List StdEvent :=
  let karr := H.object_keys rid
  let arr := toArrayTr H karr
  (arr.1.map (fun h => (HostObject.toStringTr H h).1),
    StdEvent.objectKeys rid :: arr.2
      ++ (arr.1.map (fun h => (HostObject.toStringTr H h).2)).flatten)

/-- `values()` with its call trace: `object_values` hands back an
intermediate array handle, materialized with `toArray()`. -/
def HostObject.valuesTr (H : StdHost) (rid : Nat) : List Nat × List StdEvent :=
  let varr := H.object_values rid
  let arr := toArrayTr H varr
  (arr.1, StdEvent.objectValues rid :: arr.2)

/-- `Html.array()` with its call trace: the HTML `array` boundary call hands
back an intermediate array handle, then `array_len`/`array_get` walk it. -/
def Html.arrayTr (H : StdHost) (rid : Nat) : List Nat × List StdEvent :=
  let arr := H.html_array rid
  let size := toI32 (H.array_len arr)
  ((List.range size.toNat).map (H.array_get arr),
    StdEvent.htmlArray rid :: StdEvent.arrayLen arr
      :: (List.range size.toNat).map (StdEvent.arrayGet arr))

/-! ## The HTTP `Request` pipeline of `net.ts` -/

/-- Host oracle for the `net` boundary calls: response size and bytes,
and the handles `json`/`html` hand back. -/
structure NetHost where
  dataSize : Nat
  dataBytes : List Nat
  jsonHandle : Nat
  htmlHandle : Nat

/-- Boundary events of the `net` imports. -/
inductive NetEvent where
  | send (req : Nat)
  | getDataSize (req : Nat)
  | getData (req : Nat) (size : Nat)
  | close (req : Nat)
  | json (req : Nat)
  | html (req : Nat)
  deriving DecidableEq, Repr

/-- The guest-local state of a `Request`: its handle and the `sent` flag. -/
structure RequestState where
  req : Nat
  sent : Bool
  deriving DecidableEq, Repr

namespace Request

/-- The constructor: `sent` starts `false`. -/
def create (id : Nat) : RequestState :=
  ⟨id, false⟩

/-- `send()`: one host `send` call, then `sent = true`. -/
def send (st : RequestState) : RequestState × List NetEvent :=
  (⟨st.req, true⟩, [NetEvent.send st.req])

/-- The `if (!this.sent) this.send();` gate at the top of each accessor. -/
def gate (st : RequestState) : RequestState × List NetEvent :=
  if st.sent then (st, []) else Request.send st

/-- `data()`: gate the send, read the response size, return an empty buffer
when its `i32` view is not positive, otherwise read `size` bytes and
`close()` the request. -/
def data (H : NetHost) (st : RequestState) : List Nat × RequestState × List NetEvent :=
  let sp := gate st
  let size := toI32 H.dataSize
  if size ≤ 0 then ([], sp.1, sp.2 ++ [NetEvent.getDataSize sp.1.req])
  else (H.dataBytes.take size.toNat, sp.1,
    sp.2 ++ [NetEvent.getDataSize sp.1.req, NetEvent.getData sp.1.req size.toNat,
      NetEvent.close sp.1.req])

/-- `string()`: decode `this.data()` as UTF-8, then `close()` again. -/
def string (H : NetHost) (st : RequestState) : String × RequestState × List NetEvent :=
  let d := Request.data H st
  (utf8Decode d.1, d.2.1, d.2.2 ++ [NetEvent.close d.2.1.req])

/-- `json()`: gate the send, take the `json` response handle, `close()`. -/
def json (H : NetHost) (st : RequestState) : Nat × RequestState × List NetEvent :=
  let sp := gate st
  (H.jsonHandle, sp.1, sp.2 ++ [NetEvent.json sp.1.req, NetEvent.close sp.1.req])

/-- `html()`: gate the send, take the `html` response handle, `close()`. -/
def html (H : NetHost) (st : RequestState) : Nat × RequestState × List NetEvent :=
  let sp := gate st
  (H.htmlHandle, sp.1, sp.2 ++ [NetEvent.html sp.1.req, NetEvent.close sp.1.req])

end Request

/-- The four public response accessors. -/
inductive Accessor where
  | dataA
  | stringA
  | jsonA
  | htmlA
  deriving DecidableEq, Repr

/-- Run one accessor, keeping the state and trace. -/
def runAcc (H : NetHost) (st : RequestState) : Accessor → RequestState × List NetEvent
  | .dataA => ((Request.data H st).2.1, (Request.data H st).2.2)
  | .stringA => ((Request.string H st).2.1, (Request.string H st).2.2)
  | .jsonA => ((Request.json H st).2.1, (Request.json H st).2.2)
  | .htmlA => ((Request.html H st).2.1, (Request.html H st).2.2)

/-- Run a sequence of accessor calls on one `Request` instance. -/
def runSeq (H : NetHost) : RequestState → List Accessor → RequestState × List NetEvent
  | st, [] => (st, [])
  | st, a :: rest =>
    ((runSeq H (runAcc H st a).1 rest).1,
      (runAcc H st a).2 ++ (runSeq H (runAcc H st a).1 rest).2)

/-- Number of host `send` calls in a trace. -/
def countSend (t : List NetEvent) : Nat :=
  t.countP (fun e => match e with | NetEvent.send _ => true | _ => false)

/-- Number of host `close` (request release) calls in a trace. -/
def countClose (t : List NetEvent) : Nat :=
  t.countP (fun e => match e with | NetEvent.close _ => true | _ => false)

/-! ## The `Html` node wrapper of `html.ts` -/

/-- Host oracle for sibling navigation: the raw handles `next`/`previous`
hand back and their Kind. -/
structure HtmlHost where
  next : Nat → Nat
  previous : Nat → Nat
  typeof : Nat → ObjectType

namespace Html

/-- `next()`: wrap the returned handle only when its Kind is `Node`,
otherwise `null`. -/
def next (H : HtmlHost) (rid : Nat) : Option Nat :=
  let r := H.next rid
  if H.typeof r = ObjectType.Node then some r else none

/-- `previous()`: wrap the returned handle only when its Kind is `Node`,
otherwise `null`. -/
def previous (H : HtmlHost) (rid : Nat) : Option Nat :=
  let r := H.previous rid
  if H.typeof r = ObjectType.Node then some r else none

end Html

/-- C4: `next()`/`previous()` return `null` exactly when the handle produced
by the underlying boundary call has a Kind other than `Node`; when the Kind
is `Node` they return a wrapper around exactly that handle, so a non-Node
sentinel is never exposed as a usable node. -/
theorem Html.next_previous_sentinel (H : HtmlHost) (rid : Nat) :
    (Html.next H rid = none ↔ H.typeof (H.next rid) ≠ ObjectType.Node)
    ∧ (H.typeof (H.next rid) = ObjectType.Node →
        Html.next H rid = some (H.next rid))
    ∧ (Html.previous H rid = none ↔ H.typeof (H.previous rid) ≠ ObjectType.Node)
    ∧ (H.typeof (H.previous rid) = ObjectType.Node →
        Html.previous H rid = some (H.previous rid)) := by
  refine ⟨?_, ?_, ?_, ?_⟩
  · rw [Html.next]
    by_cases h : H.typeof (H.next rid) = ObjectType.Node
    · simp [h]
    · simp [h]
  · intro h
    rw [Html.next]
    simp [h]
  · rw [Html.previous]
    by_cases h : H.typeof (H.previous rid) = ObjectType.Node
    · simp [h]
    · simp [h]
  · intro h
    rw [Html.previous]
    simp [h]

theorem next_previous_sentinel_witness :
    Html.next ⟨fun _ => 5, fun _ => 6, fun r => if r = 5 then .Node else .Null⟩ 1 = some 5
    ∧ Html.previous ⟨fun _ => 5, fun _ => 6, fun r => if r = 5 then .Node else .Null⟩ 1
        = none :=
  ⟨(Html.next_previous_sentinel
      ⟨fun _ => 5, fun _ => 6, fun r => if r = 5 then .Node else .Null⟩ 1).2.1 (by decide),
   (Html.next_previous_sentinel
      ⟨fun _ => 5, fun _ => 6, fun r => if r = 5 then .Node else .Null⟩ 1).2.2.1.mpr
      (by decide)⟩

/-- C1: evaluation of the accessors' request-release behaviour, refuting
"releases the request handle exactly once, for every response including an
empty (zero-size) one": `data()` on a zero-size response issues no `close`
at all (the early return skips it), and `string()` on a non-empty response
issues `close` twice (once inside `data()`, once itself); `json()`/`html()`
do close exactly once. -/
theorem Request.close_counts :
    countClose (Request.data ⟨0, [], 7, 8⟩ (Request.create 1)).2.2 = 0
    ∧ countClose (Request.string ⟨3, [1, 2, 3], 7, 8⟩ (Request.create 1)).2.2 = 2
    ∧ countClose (Request.string ⟨0, [], 7, 8⟩ (Request.create 1)).2.2 = 1
    ∧ countClose (Request.data ⟨3, [1, 2, 3], 7, 8⟩ (Request.create 1)).2.2 = 1
    ∧ countClose (Request.json ⟨0, [], 7, 8⟩ (Request.create 1)).2.2 = 1
    ∧ countClose (Request.html ⟨0, [], 7, 8⟩ (Request.create 1)).2.2 = 1 := by
  decide

theorem gate_sent (st : RequestState) : (Request.gate st).1.sent = true := by
  rw [Request.gate]
  split
  · next h => exact h
  · rfl

theorem gate_req (st : RequestState) : (Request.gate st).1.req = st.req := by
  rw [Request.gate]
  split <;> rfl

theorem countSend_gate_sent (st : RequestState) (h : st.sent = true) :
    countSend (Request.gate st).2 = 0 := by
  rw [Request.gate, if_pos h]
  rfl

theorem countSend_gate_unsent (st : RequestState) (h : st.sent = false) :
    countSend (Request.gate st).2 = 1 := by
  rw [Request.gate, if_neg (by rw [h]; exact Bool.false_ne_true)]
  rfl

theorem data_state (H : NetHost) (st : RequestState) :
    (Request.data H st).2.1 = (Request.gate st).1 := by
  rw [Request.data]
  split <;> rfl

theorem countSend_data (H : NetHost) (st : RequestState) :
    countSend (Request.data H st).2.2 = countSend (Request.gate st).2 := by
  rw [Request.data]
  split <;> simp [countSend, List.countP_append, List.countP_cons]

theorem countSend_string (H : NetHost) (st : RequestState) :
    countSend (Request.string H st).2.2 = countSend (Request.gate st).2 := by
  rw [Request.string]
  show countSend ((Request.data H st).2.2 ++ [NetEvent.close (Request.data H st).2.1.req])
    = countSend (Request.gate st).2
  rw [countSend, List.countP_append, ← countSend, countSend_data]
  rfl

theorem countSend_json (H : NetHost) (st : RequestState) :
    countSend (Request.json H st).2.2 = countSend (Request.gate st).2 := by
  rw [Request.json]
  show countSend ((Request.gate st).2 ++ _) = countSend (Request.gate st).2
  rw [countSend, List.countP_append, ← countSend]
  rfl

theorem countSend_html (H : NetHost) (st : RequestState) :
    countSend (Request.html H st).2.2 = countSend (Request.gate st).2 := by
  rw [Request.html]
  show countSend ((Request.gate st).2 ++ _) = countSend (Request.gate st).2
  rw [countSend, List.countP_append, ← countSend]
  rfl

theorem countSend_runAcc (H : NetHost) (st : RequestState) (a : Accessor) :
    countSend (runAcc H st a).2 = countSend (Request.gate st).2 := by
  cases a
  · exact countSend_data H st
  · exact countSend_string H st
  · exact countSend_json H st
  · exact countSend_html H st

theorem sent_runAcc (H : NetHost) (st : RequestState) (a : Accessor) :
    (runAcc H st a).1.sent = true := by
  cases a
  · rw [runAcc, data_state]
    exact gate_sent st
  · rw [runAcc]
    show (Request.data H st).2.1.sent = true
    rw [data_state]
    exact gate_sent st
  · rw [runAcc]
    show (Request.gate st).1.sent = true
    exact gate_sent st
  · rw [runAcc]
    show (Request.gate st).1.sent = true
    exact gate_sent st

theorem runSeq_sent_mono (H : NetHost) :
    ∀ (ops : List Accessor) (st : RequestState), st.sent = true →
      (runSeq H st ops).1.sent = true := by
  intro ops
  induction ops with
  | nil => intro st h; exact h
  | cons a rest ih =>
    intro st _
    rw [runSeq]
    exact ih (runAcc H st a).1 (sent_runAcc H st a)

theorem countSend_runSeq_sent (H : NetHost) :
    ∀ (ops : List Accessor) (st : RequestState), st.sent = true →
      countSend (runSeq H st ops).2 = 0 := by
  intro ops
  induction ops with
  | nil => intro st _; rfl
  | cons a rest ih =>
    intro st h
    rw [runSeq]
    show countSend ((runAcc H st a).2 ++ (runSeq H (runAcc H st a).1 rest).2) = 0
    rw [countSend, List.countP_append, ← countSend, ← countSend]
    rw [countSend_runAcc H st a, countSend_gate_sent st h,
      ih (runAcc H st a).1 (sent_runAcc H st a)]

/-- C2: `sent` is `false` at construction; `send()` issues exactly one host
transmit and sets `sent`; every accessor issues a transmit exactly when
`sent` is `false` beforehand; any sequence of accessor calls on one instance
transmits at most once; and once `sent` is `true` it never returns to
`false` under further accessor calls. -/
theorem Request.send_once (r : Nat) :
    (Request.create r).sent = false
    ∧ (∀ st : RequestState,
        (Request.send st).2 = [NetEvent.send st.req] ∧ (Request.send st).1.sent = true)
    ∧ (∀ (H : NetHost) (st : RequestState) (a : Accessor),
        st.sent = true → countSend (runAcc H st a).2 = 0)
    ∧ (∀ (H : NetHost) (st : RequestState) (a : Accessor),
        st.sent = false → countSend (runAcc H st a).2 = 1)
    ∧ (∀ (H : NetHost) (ops : List Accessor),
        countSend (runSeq H (Request.create r) ops).2 ≤ 1)
    ∧ (∀ (H : NetHost) (ops : List Accessor) (st : RequestState),
        st.sent = true → (runSeq H st ops).1.sent = true) := by
  refine ⟨rfl, fun st => ⟨rfl, rfl⟩, ?_, ?_, ?_, ?_⟩
  · intro H st a h
    rw [countSend_runAcc, countSend_gate_sent st h]
  · intro H st a h
    rw [countSend_runAcc, countSend_gate_unsent st h]
  · intro H ops
    cases ops with
    | nil => exact Nat.zero_le 1
    | cons a rest =>
      rw [runSeq]
      show countSend ((runAcc H (Request.create r) a).2
        ++ (runSeq H (runAcc H (Request.create r) a).1 rest).2) ≤ 1
      rw [countSend, List.countP_append, ← countSend, ← countSend]
      rw [countSend_runAcc, countSend_gate_unsent (Request.create r) rfl,
        countSend_runSeq_sent H rest _ (sent_runAcc H (Request.create r) a)]
  · intro H ops st h
    exact runSeq_sent_mono H ops st h

theorem send_once_witness :
    countSend (runSeq ⟨3, [1, 2, 3], 7, 8⟩ (Request.create 1)
        [Accessor.dataA, Accessor.stringA, Accessor.jsonA]).2 ≤ 1
    ∧ (runSeq ⟨3, [1, 2, 3], 7, 8⟩ ⟨1, true⟩ [Accessor.htmlA]).1.sent = true :=
  ⟨(Request.send_once 1).2.2.2.2.1 ⟨3, [1, 2, 3], 7, 8⟩
      [Accessor.dataA, Accessor.stringA, Accessor.jsonA],
   (Request.send_once 1).2.2.2.2.2 ⟨3, [1, 2, 3], 7, 8⟩ [Accessor.htmlA] ⟨1, true⟩ rfl⟩

theorem getData_not_mem_gate (st : RequestState) (r s : Nat) :
    NetEvent.getData r s ∉ (Request.gate st).2 := by
  rw [Request.gate]
  split
  · simp
  · simp [Request.send]

/-- C9: boundary reads are never issued with a non-positive buffer size:
`toString()` returns `""` without any `read_string` call whenever the
reported length's `i32` view is not positive, every `read_string` call it
does issue has a positive length; `data()` returns an empty buffer without
any `get_data` call whenever the reported size's `i32` view is not positive,
and every `get_data` call it does issue has a positive size. -/
theorem reads_need_positive_size :
    (∀ (H : StdHost) (rid : Nat), toI32 (H.string_len rid) ≤ 0 →
        (HostObject.toStringTr H rid).1 = ""
        ∧ ∀ r l, StdEvent.readString r l ∉ (HostObject.toStringTr H rid).2)
    ∧ (∀ (H : StdHost) (rid r l : Nat),
        StdEvent.readString r l ∈ (HostObject.toStringTr H rid).2 → 0 < l)
    ∧ (∀ (Hn : NetHost) (st : RequestState), toI32 Hn.dataSize ≤ 0 →
        (Request.data Hn st).1 = []
        ∧ ∀ r s, NetEvent.getData r s ∉ (Request.data Hn st).2.2)
    ∧ (∀ (Hn : NetHost) (st : RequestState) (r s : Nat),
        NetEvent.getData r s ∈ (Request.data Hn st).2.2 → 0 < s) := by
  refine ⟨?_, ?_, ?_, ?_⟩
  · intro H rid h
    constructor
    · simp only [HostObject.toStringTr, if_pos h]
    · intro r l
      simp only [HostObject.toStringTr, if_pos h]
      simp
  · intro H rid r l hmem
    by_cases h : toI32 (H.string_len rid) ≤ 0
    · simp only [HostObject.toStringTr, if_pos h] at hmem
      simp at hmem
    · simp only [HostObject.toStringTr, if_neg h] at hmem
      simp only [List.mem_cons, List.mem_singleton] at hmem
      rcases hmem with h1 | h1 | h1
      · cases h1
      · cases h1
        omega
      · cases h1
  · intro Hn st h
    constructor
    · simp only [Request.data, if_pos h]
    · intro r s
      simp only [Request.data, if_pos h]
      intro hmem
      rcases List.mem_append.mp hmem with h1 | h1
      · exact getData_not_mem_gate st r s h1
      · simp at h1
  · intro Hn st r s hmem
    by_cases h : toI32 Hn.dataSize ≤ 0
    · simp only [Request.data, if_pos h] at hmem
      rcases List.mem_append.mp hmem with h1 | h1
      · exact absurd h1 (getData_not_mem_gate st r s)
      · simp at h1
    · simp only [Request.data, if_neg h] at hmem
      rcases List.mem_append.mp hmem with h1 | h1
      · exact absurd h1 (getData_not_mem_gate st r s)
      · simp only [List.mem_cons, List.mem_singleton] at h1
        rcases h1 with h2 | h2 | h2 | h2
        · cases h2
        · cases h2
          omega
        · cases h2
        · cases h2

theorem reads_need_positive_size_witness :
    (HostObject.toStringTr ⟨fun _ => 0, fun _ _ => [], fun _ => 0, fun _ => 0,
        fun _ => 0, fun _ _ => 0, fun _ => 0⟩ 4).1 = ""
    ∧ (Request.data ⟨0, [], 7, 8⟩ (Request.create 1)).1 = [] :=
  ⟨(reads_need_positive_size.1 ⟨fun _ => 0, fun _ _ => [], fun _ => 0, fun _ => 0,
      fun _ => 0, fun _ _ => 0, fun _ => 0⟩ 4 (by decide)).1,
   (reads_need_positive_size.2.2.1 ⟨0, [], 7, 8⟩ (Request.create 1) (by decide)).1⟩

theorem destroy_not_mem_toStringTr (H : StdHost) (x h : Nat) :
    StdEvent.destroy h ∉ (HostObject.toStringTr H x).2 := by
  simp only [HostObject.toStringTr]
  split
  · simp
  · simp

/-- C8: `keys()`, `values()` and `Html.array()` each obtain an intermediate
host array handle (`object_keys` / `object_values` / the HTML `array` call)
that is never passed to `destroy` before the method returns; and since the
returned data contains only `array_get` results (for `keys()`, only decoded
strings), the intermediate handle is not exposed to the caller, so the
caller cannot release it. -/
theorem enumeration_keeps_intermediate (H : StdHost) (rid : Nat) :
    (∀ h, StdEvent.destroy h ∉ (HostObject.keysTr H rid).2)
    ∧ (∀ h, StdEvent.destroy h ∉ (HostObject.valuesTr H rid).2)
    ∧ (∀ h, StdEvent.destroy h ∉ (Html.arrayTr H rid).2)
    ∧ ((∀ i, H.array_get (H.object_values rid) i ≠ H.object_values rid) →
        H.object_values rid ∉ (HostObject.valuesTr H rid).1)
    ∧ ((∀ i, H.array_get (H.html_array rid) i ≠ H.html_array rid) →
        H.html_array rid ∉ (Html.arrayTr H rid).1) := by
  refine ⟨?_, ?_, ?_, ?_, ?_⟩
  · intro h hmem
    simp [HostObject.keysTr, toArrayTr] at hmem
    rcases hmem with ⟨x, hx, hmem2⟩
    exact destroy_not_mem_toStringTr H _ h hmem2
  · intro h hmem
    simp [HostObject.valuesTr, toArrayTr] at hmem
  · intro h hmem
    simp [Html.arrayTr] at hmem
  · intro hna hmem
    simp [HostObject.valuesTr, toArrayTr] at hmem
    rcases hmem with ⟨i, hi, he⟩
    exact hna i he
  · intro hna hmem
    simp [Html.arrayTr] at hmem
    rcases hmem with ⟨i, hi, he⟩
    exact hna i he

theorem enumeration_keeps_intermediate_witness :
    ((∀ i, StdHost.array_get ⟨fun _ => 0, fun _ _ => [], fun _ => 9, fun _ => 9,
        fun _ => 1, fun _ _ => 3, fun _ => 9⟩
          (StdHost.object_values ⟨fun _ => 0, fun _ _ => [], fun _ => 9, fun _ => 9,
            fun _ => 1, fun _ _ => 3, fun _ => 9⟩ 2) i
        ≠ StdHost.object_values ⟨fun _ => 0, fun _ _ => [], fun _ => 9, fun _ => 9,
            fun _ => 1, fun _ _ => 3, fun _ => 9⟩ 2)
      → StdHost.object_values ⟨fun _ => 0, fun _ _ => [], fun _ => 9, fun _ => 9,
            fun _ => 1, fun _ _ => 3, fun _ => 9⟩ 2
          ∉ (HostObject.valuesTr ⟨fun _ => 0, fun _ _ => [], fun _ => 9, fun _ => 9,
            fun _ => 1, fun _ _ => 3, fun _ => 9⟩ 2).1)
    ∧ ((∀ i, StdHost.array_get ⟨fun _ => 0, fun _ _ => [], fun _ => 9, fun _ => 9,
        fun _ => 1, fun _ _ => 3, fun _ => 9⟩ 9 i ≠ 9)
      → (9 : Nat) ∉ (HostObject.valuesTr ⟨fun _ => 0, fun _ _ => [], fun _ => 9,
          fun _ => 9, fun _ => 1, fun _ _ => 3, fun _ => 9⟩ 2).1) :=
  ⟨(enumeration_keeps_intermediate ⟨fun _ => 0, fun _ _ => [], fun _ => 9, fun _ => 9,
      fun _ => 1, fun _ _ => 3, fun _ => 9⟩ 2).2.2.2.1,
   fun hn => (enumeration_keeps_intermediate ⟨fun _ => 0, fun _ _ => [], fun _ => 9,
      fun _ => 9, fun _ => 1, fun _ _ => 3, fun _ => 9⟩ 2).2.2.2.1 hn⟩
